import Mathlib

/-!
Shallow embedding of the cache engine (`cache.go`): an in-process key/value
store whose entries carry an absolute expiration instant.

Modelling conventions:
* timestamps and durations are `Int` nanoseconds (Go `int64` / `time.Duration`);
  the current time `time.Now().UnixNano()` is passed explicitly as a `now`
  parameter wherever the Go code reads the clock;
* the payload type `interface\x7b\x7d` is a type parameter `V`;
* the Go map `map[string]Item` is an association list `List (String × Item V)`
  where insertion removes any previous binding before prepending the new one;
* the `sync.RWMutex` and the background goroutine (`gcLoop`, `stopGc`) are
  concurrency apparatus with no sequential content and are not modelled:
  each operation is a function of the pre-state;
* gob encoding is modelled abstractly: `Save` produces the items list itself
  as the stream, and `Load` receives the decoder's outcome as an
  `Option (List (String × Item V))` (`none` = decode error).
-/

set_option autoImplicit false

namespace CacheSys

/-- `Item`: a stored value (`Object`) plus an absolute expiration instant in
nanoseconds (`Expiration`); `0` means "never expires". -/
structure Item (V : Type) where
  object : V
  expiration : Int
  deriving DecidableEq, Repr

/-- Sentinel duration: the entry never expires (`NoExpiration = -1`). -/
def NoExpiration : Int := -1

/-- Sentinel duration: use the cache's default expiration (`DefaultExpiration = 0`). -/
def DefaultExpiration : Int := 0

/-- `Item.Expired`: an item is expired iff its expiration is nonzero and the
current time is strictly past it (`time.Now().UnixNano() > item.Expiration`). -/
def Item.expired {V : Type} (item : Item V) (now : Int) : Bool :=
  if item.expiration = 0 then false
  else decide (now > item.expiration)

/-- Lookup in the association-list model of `map[string]Item`. -/
def itemsLookup {V : Type} : List (String × Item V) → String → Option (Item V)
  | [], _ => none
  | p :: rest, k => if p.1 = k then some p.2 else itemsLookup rest k

/-- Removal of a key, the model of Go's builtin `delete(m, k)`. -/
def itemsErase {V : Type} (l : List (String × Item V)) (k : String) :
    List (String × Item V) :=
  l.filter (fun p => p.1 ≠ k)

/-- Map assignment `m[k] = item`: drop any old binding, prepend the new one. -/
def itemsInsert {V : Type} (l : List (String × Item V)) (k : String)
    (item : Item V) : List (String × Item V) :=
  (k, item) :: itemsErase l k

/-- The `Cache` record: default TTL, sweep interval, and the item mapping.
The mutex and stop channel carry no sequential state. -/
structure Cache (V : Type) where
  defaultExpiration : Int
  gcInterval : Int
  items : List (String × Item V)
  deriving DecidableEq

/-- `NewCache`: empty mapping with the given default TTL and sweep interval. -/
def NewCache {V : Type} (defaultExpiration gcInterval : Int) : Cache V :=
  { defaultExpiration := defaultExpiration
    gcInterval := gcInterval
    items := [] }

/-- The expiration instant `Cache.Set` stores: substitute the default TTL for
`DefaultExpiration`, then `now + d` for positive `d` and the sentinel `0`
otherwise (the `var e int64` left at zero). -/
def resolveExpiration {V : Type} (c : Cache V) (now d : Int) : Int :=
  let d' := if d = DefaultExpiration then c.defaultExpiration else d
  if d' > 0 then now + d' else 0

/-- `Cache.Set`: unconditional overwrite with the resolved expiration. -/
def Cache.set {V : Type} (c : Cache V) (now : Int) (k : String) (v : V)
    (d : Int) : Cache V :=
  { c with items := itemsInsert c.items k ⟨v, resolveExpiration c now d⟩ }

/-- `Cache.Get` (and the lock-free `Cache.get` it mirrors): absent or expired
keys read as not-found; the mapping is a read-only input, so the state cannot
change. `none` models Go's `(nil, false)`, `some v` models `(v, true)`. -/
def Cache.get {V : Type} (c : Cache V) (now : Int) (k : String) : Option V :=
  match itemsLookup c.items k with
  | none => none
  | some item => if item.expired now then none else some item.object

/-- The error values the operations report (`fmt.Errorf` in the source). -/
inductive CacheError where
  | alreadyExists (k : String)
  | notFound (k : String)
  | decodeFailure
  deriving DecidableEq, Repr

/-- `Cache.Add`: check-then-write in one critical section; fails when the
lock-free `get` finds a live entry, otherwise stores via `set`. -/
def Cache.add {V : Type} (c : Cache V) (now : Int) (k : String) (v : V)
    (d : Int) : Cache V × Option CacheError :=
  match c.get now k with
  | some _ => (c, some (CacheError.alreadyExists k))
  | none => (c.set now k v d, none)

/-- `Cache.Replace`: fails when the lock-free `get` reports not-found,
otherwise stores via `set`. -/
def Cache.replace {V : Type} (c : Cache V) (now : Int) (k : String) (v : V)
    (d : Int) : Cache V × Option CacheError :=
  match c.get now k with
  | none => (c, some (CacheError.notFound k))
  | some _ => (c.set now k v d, none)

/-- `Cache.Delete`: unconditional key removal. -/
def Cache.delete {V : Type} (c : Cache V) (k : String) : Cache V :=
  { c with items := itemsErase c.items k }

/-- `Cache.DeleteExpired`: one reference time `now` for the whole scan; an
entry is removed iff `v.Expiration > 0 && now > v.Expiration`. -/
def Cache.deleteExpired {V : Type} (c : Cache V) (now : Int) : Cache V :=
  { c with items :=
      c.items.filter (fun p =>
        !(decide (p.2.expiration > 0) && decide (now > p.2.expiration))) }

/-- `Cache.Count`: `len(c.items)`, the structural size of the mapping. -/
def Cache.count {V : Type} (c : Cache V) : Nat :=
  c.items.length

/-- `Cache.Flush`: replace the mapping with an empty one. -/
def Cache.flush {V : Type} (c : Cache V) : Cache V :=
  { c with items := [] }

/-- `Cache.Save`: encode the whole mapping; the abstract stream is the
mapping itself (gob round-trips the encoded map). -/
def Cache.save {V : Type} (c : Cache V) : List (String × Item V) :=
  c.items

/-- The merge loop of `Cache.Load`: for each decoded binding, install it
when the live mapping has no binding for its key or a currently expired
one; otherwise keep the live entry. -/
def loadMerge {V : Type} (now : Int) (live : List (String × Item V)) :
    List (String × Item V) → List (String × Item V)
  | [] => live
  | (k, v) :: rest =>
    match itemsLookup live k with
    | none => loadMerge now (itemsInsert live k v) rest
    | some ov =>
      if ov.expired now then loadMerge now (itemsInsert live k v) rest
      else loadMerge now live rest

/-- `Cache.Load`: the decoder's outcome comes in as `dec`; on decode failure
the cache is untouched and an error is returned, on success the merge loop
runs under one write lock. -/
def Cache.load {V : Type} (c : Cache V) (now : Int)
    (dec : Option (List (String × Item V))) : Cache V × Option CacheError :=
  match dec with
  | none => (c, some CacheError.decodeFailure)
  | some items => ({ c with items := loadMerge now c.items items }, none)

/-- Cache states reachable through the public operations starting from
`NewCache`, with every clock reading nonnegative (`time.Now().UnixNano()`
is nanoseconds since 1970), and `load` applied only to streams produced by
`save` (or to decode failures). -/
inductive Reachable {V : Type} : Cache V → Prop where
  | new (d g : Int) : Reachable (NewCache d g)
  | set {c : Cache V} (now : Int) (k : String) (v : V) (d : Int) :
      Reachable c → 0 ≤ now → Reachable (c.set now k v d)
  | add {c : Cache V} (now : Int) (k : String) (v : V) (d : Int) :
      Reachable c → 0 ≤ now → Reachable (c.add now k v d).1
  | replace {c : Cache V} (now : Int) (k : String) (v : V) (d : Int) :
      Reachable c → 0 ≤ now → Reachable (c.replace now k v d).1
  | del {c : Cache V} (k : String) : Reachable c → Reachable (c.delete k)
  | sweep {c : Cache V} (now : Int) : Reachable c → Reachable (c.deleteExpired now)
  | flushed {c : Cache V} : Reachable c → Reachable c.flush
  | loadSaved {c c₂ : Cache V} (now : Int) : Reachable c → Reachable c₂ →
      Reachable (c.load now (some c₂.save)).1
  | loadFail {c : Cache V} (now : Int) : Reachable c →
      Reachable (c.load now none).1

/-- A concrete cache used by the witnesses: one live entry, one
never-expiring entry, one entry already expired at time 10. -/
def wCache : Cache Nat :=
  { defaultExpiration := 20
    gcInterval := 1
    items := [("a", ⟨1, 100⟩), ("b", ⟨2, 0⟩), ("c", ⟨3, 5⟩)] }

/-- The decoded stream used by the C4 witness: new values for the live key
"a", the expired key "c", and the absent key "z". -/
def wDecoded : List (String × Item Nat) :=
  [("a", ⟨50, 200⟩), ("c", ⟨60, 300⟩), ("z", ⟨70, 400⟩)]

/-! ### Association-list lemmas shared by the proofs -/

theorem itemsLookup_erase_self {V : Type} (l : List (String × Item V))
    (k : String) : itemsLookup (itemsErase l k) k = none := by
  induction l with
  | nil => rfl
  | cons p rest ih =>
    by_cases h : p.1 = k
    · simpa [itemsErase, h] using ih
    · simpa [itemsErase, itemsLookup, h] using ih

theorem itemsLookup_erase_ne {V : Type} (l : List (String × Item V))
    (k k' : String) (h : k' ≠ k) :
    itemsLookup (itemsErase l k) k' = itemsLookup l k' := by
  have hkk' : ¬(k = k') := fun hc => h hc.symm
  induction l with
  | nil => rfl
  | cons p rest ih =>
    by_cases hpk : p.1 = k
    · simpa [itemsErase, itemsLookup, List.filter_cons, hpk, hkk'] using ih
    · by_cases hpk' : p.1 = k'
      · simp [itemsErase, itemsLookup, List.filter_cons, hpk, hpk', h]
      · simpa [itemsErase, itemsLookup, List.filter_cons, hpk, hpk'] using ih

theorem itemsLookup_insert_self {V : Type} (l : List (String × Item V))
    (k : String) (item : Item V) :
    itemsLookup (itemsInsert l k item) k = some item := by
  simp [itemsInsert, itemsLookup]

theorem itemsLookup_insert_ne {V : Type} (l : List (String × Item V))
    (k k' : String) (item : Item V) (h : k' ≠ k) :
    itemsLookup (itemsInsert l k item) k' = itemsLookup l k' := by
  have hk : k ≠ k' := Ne.symm h
  simp [itemsInsert, itemsLookup, hk, itemsLookup_erase_ne l k k' h]

theorem mem_itemsErase {V : Type} {l : List (String × Item V)} {k : String}
    {p : String × Item V} (h : p ∈ itemsErase l k) : p ∈ l :=
  List.mem_of_mem_filter h

theorem mem_itemsInsert {V : Type} {l : List (String × Item V)} {k : String}
    {item : Item V} {p : String × Item V} (h : p ∈ itemsInsert l k item) :
    p = (k, item) ∨ p ∈ l := by
  rcases List.mem_cons.mp h with h | h
  · exact Or.inl h
  · exact Or.inr (mem_itemsErase h)

theorem itemsLookup_mem {V : Type} {l : List (String × Item V)} {k : String}
    {item : Item V} (h : itemsLookup l k = some item) : (k, item) ∈ l := by
  induction l with
  | nil => simp [itemsLookup] at h
  | cons p rest ih =>
    obtain ⟨a, b⟩ := p
    by_cases hpk : a = k
    · subst hpk
      simp only [itemsLookup, if_pos] at h
      obtain rfl := Option.some.inj h
      exact List.mem_cons_self _ _
    · simp only [itemsLookup, hpk, if_neg, not_false_iff] at h
      exact List.mem_cons_of_mem _ (ih h)

theorem itemsLookup_eq_none_of_not_mem_keys {V : Type}
    {l : List (String × Item V)} {k : String} (h : k ∉ l.map Prod.fst) :
    itemsLookup l k = none := by
  induction l with
  | nil => rfl
  | cons p rest ih =>
    simp only [List.map_cons, List.mem_cons] at h
    push_neg at h
    rw [itemsLookup, if_neg (fun hc => h.1 hc.symm)]
    exact ih h.2

theorem loadMerge_lookup_of_not_in_dec {V : Type} (now : Int)
    (dec : List (String × Item V)) :
    ∀ (live : List (String × Item V)) (k : String),
    itemsLookup dec k = none →
    itemsLookup (loadMerge now live dec) k = itemsLookup live k := by
  induction dec with
  | nil => intro live k _; rfl
  | cons p rest ih =>
    intro live k h
    obtain ⟨k₀, v₀⟩ := p
    have hk : ¬(k₀ = k) := by
      intro hc
      rw [itemsLookup, if_pos hc] at h
      exact Option.noConfusion h
    have hrest : itemsLookup rest k = none := by
      rwa [itemsLookup, if_neg hk] at h
    have hne : k ≠ k₀ := fun hc => hk hc.symm
    unfold loadMerge
    cases hl : itemsLookup live k₀ with
    | none =>
      rw [ih _ _ hrest, itemsLookup_insert_ne _ _ _ _ hne]
    | some ov =>
      dsimp only
      by_cases he : ov.expired now
      · rw [if_pos he, ih _ _ hrest, itemsLookup_insert_ne _ _ _ _ hne]
      · rw [if_neg he, ih _ _ hrest]

theorem loadMerge_lookup_of_in_dec {V : Type} (now : Int)
    (dec : List (String × Item V)) :
    (dec.map Prod.fst).Nodup →
    ∀ (live : List (String × Item V)) (k : String) (v : Item V),
    itemsLookup dec k = some v →
    itemsLookup (loadMerge now live dec) k =
      (match itemsLookup live k with
        | none => some v
        | some ov => if ov.expired now then some v else some ov) := by
  induction dec with
  | nil => intro _ live k v h; exact Option.noConfusion h
  | cons p rest ih =>
    intro hnd live k v h
    obtain ⟨k₀, v₀⟩ := p
    simp only [List.map_cons, List.nodup_cons] at hnd
    obtain ⟨hk₀, hndrest⟩ := hnd
    by_cases hkk : k₀ = k
    · subst hkk
      have hv : v₀ = v := by
        rw [itemsLookup, if_pos rfl] at h
        exact Option.some.inj h
      subst hv
      have hrest : itemsLookup rest k₀ = none :=
        itemsLookup_eq_none_of_not_mem_keys hk₀
      unfold loadMerge
      cases hl : itemsLookup live k₀ with
      | none =>
        rw [loadMerge_lookup_of_not_in_dec now rest _ _ hrest,
          itemsLookup_insert_self]
      | some ov =>
        dsimp only
        by_cases he : ov.expired now
        · rw [if_pos he, loadMerge_lookup_of_not_in_dec now rest _ _ hrest,
            itemsLookup_insert_self]
          simp [he]
        · rw [if_neg he, loadMerge_lookup_of_not_in_dec now rest _ _ hrest, hl]
          simp [he]
    · have hrest : itemsLookup rest k = some v := by
        rwa [itemsLookup, if_neg hkk] at h
      have hne : k ≠ k₀ := fun hc => hkk hc.symm
      unfold loadMerge
      cases hl : itemsLookup live k₀ with
      | none =>
        rw [ih hndrest _ k v hrest, itemsLookup_insert_ne _ _ _ _ hne]
      | some ov =>
        dsimp only
        by_cases he : ov.expired now
        · rw [if_pos he, ih hndrest _ k v hrest,
            itemsLookup_insert_ne _ _ _ _ hne]
        · rw [if_neg he, ih hndrest _ k v hrest]

theorem loadMerge_mem {V : Type} (now : Int) (dec : List (String × Item V)) :
    ∀ (live : List (String × Item V)) (p : String × Item V),
    p ∈ loadMerge now live dec → p ∈ live ∨ p ∈ dec := by
  induction dec with
  | nil => intro live p h; exact Or.inl h
  | cons q rest ih =>
    intro live p h
    obtain ⟨k₀, v₀⟩ := q
    unfold loadMerge at h
    have step : ∀ {live' : List (String × Item V)},
        p ∈ loadMerge now live' rest →
        (p ∈ live' → p ∈ live ∨ p = (k₀, v₀)) →
        p ∈ live ∨ p ∈ (k₀, v₀) :: rest := by
      intro live' h' hsub
      rcases ih live' p h' with hl | hr
      · rcases hsub hl with hl' | hl'
        · exact Or.inl hl'
        · exact Or.inr (by simp [hl'])
      · exact Or.inr (List.mem_cons_of_mem _ hr)
    cases hl : itemsLookup live k₀ with
    | none =>
      rw [hl] at h
      exact step h (fun hm => (mem_itemsInsert hm).elim
        (fun he => Or.inr he) (fun he => Or.inl he))
    | some ov =>
      rw [hl] at h
      dsimp only at h
      by_cases he : ov.expired now
      · rw [if_pos he] at h
        exact step h (fun hm => (mem_itemsInsert hm).elim
          (fun he' => Or.inr he') (fun he' => Or.inl he'))
      · rw [if_neg he] at h
        exact step h (fun hm => Or.inl hm)

/-! ### Claim theorems -/

/-- C1: `get(k)` reports not-found exactly when `k` is absent from the
mapping or the stored entry is expired at the time of the call, and returns
the stored value with `found = true` when the entry is present and not
expired. In the embedding `Cache.get` is a pure function of the state (the
Go code takes only a read lock and performs no map write), so it leaves the
mapping unchanged by construction and never deletes the expired entry. -/
theorem get_not_found_iff_absent_or_expired {V : Type} (c : Cache V)
    (now : Int) (k : String) :
    (c.get now k = none ↔
      itemsLookup c.items k = none ∨
        ∃ item, itemsLookup c.items k = some item ∧ item.expired now = true) ∧
    (∀ item, itemsLookup c.items k = some item → item.expired now = false →
      c.get now k = some item.object) := by
  constructor
  · unfold Cache.get
    cases h : itemsLookup c.items k with
    | none => simp
    | some item =>
      by_cases he : item.expired now <;> simp [he]
  · intro item hl he
    simp [Cache.get, hl, he]

/-- Witness for C1 at a concrete cache: the live entry under "a" is
returned, and the expired entry under "c" reads as not-found. -/
theorem get_not_found_iff_absent_or_expired_witness :
    wCache.get 10 "a" = some 1 ∧ wCache.get 10 "c" = none :=
  ⟨(get_not_found_iff_absent_or_expired wCache 10 "a").2 ⟨1, 100⟩
      (by decide) (by decide),
    (get_not_found_iff_absent_or_expired wCache 10 "c").1.mpr
      (Or.inr ⟨⟨3, 5⟩, by decide, by decide⟩)⟩

/-- C2: `set(key, value, ttl)` first substitutes the default TTL for
`UseDefault` (0); when the resolved duration is `<= 0` the entry is stored
with `expiresAt = 0`, otherwise with `expiresAt = now + duration`; the write
is total (no error value) and unconditionally overwrites the binding for the
key, leaving every other key's binding unchanged. -/
theorem set_stores_resolved_expiration {V : Type} (c : Cache V) (now : Int)
    (k : String) (v : V) (d : Int) :
    ((if d = DefaultExpiration then c.defaultExpiration else d) ≤ 0 →
      itemsLookup (c.set now k v d).items k = some ⟨v, 0⟩) ∧
    (0 < (if d = DefaultExpiration then c.defaultExpiration else d) →
      itemsLookup (c.set now k v d).items k =
        some ⟨v, now + (if d = DefaultExpiration then c.defaultExpiration else d)⟩) ∧
    (∀ k', k' ≠ k →
      itemsLookup (c.set now k v d).items k' = itemsLookup c.items k') := by
  refine ⟨?_, ?_, ?_⟩
  · intro hle
    have : resolveExpiration c now d = 0 := by
      unfold resolveExpiration
      simp only []
      omega
    simp [Cache.set, this, itemsLookup_insert_self]
  · intro hpos
    have : resolveExpiration c now d =
        now + (if d = DefaultExpiration then c.defaultExpiration else d) := by
      unfold resolveExpiration
      simp only []
      omega
    simp [Cache.set, this, itemsLookup_insert_self]
  · intro k' hk'
    simp [Cache.set, itemsLookup_insert_ne _ _ _ _ hk']

set_option linter.unnecessarySimpa false in
/-- Witness for C2: at `wCache` (default TTL 20), a `set` with
`ttl = UseDefault` stores `expiresAt = 10 + 20`, and a `set` with
`ttl = NoExpiration` stores the sentinel `0`; key "b" is untouched. -/
theorem set_stores_resolved_expiration_witness :
    itemsLookup (wCache.set 10 "a" 9 DefaultExpiration).items "a" =
      some ⟨9, 30⟩ ∧
    itemsLookup (wCache.set 10 "a" 9 NoExpiration).items "a" = some ⟨9, 0⟩ ∧
    itemsLookup (wCache.set 10 "a" 9 DefaultExpiration).items "b" =
      some ⟨2, 0⟩ :=
  ⟨by
      have := (set_stores_resolved_expiration wCache 10 "a" 9
        DefaultExpiration).2.1 (by decide)
      simpa using this,
    (set_stores_resolved_expiration wCache 10 "a" 9 NoExpiration).1 (by decide),
    by
      have := (set_stores_resolved_expiration wCache 10 "a" 9
        DefaultExpiration).2.2 "b" (by decide)
      simpa [wCache, itemsLookup] using this⟩

/-- C9: after `set(k, v, NoExpiration)` the stored expiration is the
never-expires sentinel `0`, so `get(k)` returns `(v, true)` at the write
time and at every later (indeed every) instant: the entry never becomes
not-found through expiration. -/
theorem set_noExpiration_never_expires {V : Type} (c : Cache V) (now : Int)
    (k : String) (v : V) :
    itemsLookup (c.set now k v NoExpiration).items k = some ⟨v, 0⟩ ∧
    ∀ later : Int, (c.set now k v NoExpiration).get later k = some v := by
  have he : resolveExpiration c now NoExpiration = 0 := by
    unfold resolveExpiration NoExpiration DefaultExpiration
    norm_num
  constructor
  · simp [Cache.set, he, itemsLookup_insert_self]
  · intro later
    simp [Cache.get, Cache.set, he, itemsLookup_insert_self, Item.expired]

/-- C7: a `load` whose decode fails returns an error and leaves the live
mapping entirely unmodified: the post-state is the pre-state, so every key's
binding is unchanged. -/
theorem load_decode_failure_unchanged {V : Type} (c : Cache V) (now : Int) :
    c.load now none = (c, some CacheError.decodeFailure) ∧
    ∀ k, itemsLookup (c.load now none).1.items k = itemsLookup c.items k :=
  ⟨rfl, fun _ => rfl⟩

/-- C5: `add(k, v, ttl)` fails with `AlreadyExists` iff `get(k)` would
currently succeed; on failure the state is untouched, otherwise it behaves
exactly as `set(k, v, ttl)`. In particular after a successful
`add(k, v1, ttl)`, while the stored entry has not expired, a second
`add(k, v2, ttl)` fails with `AlreadyExists`, changes nothing, and `get(k)`
still returns `v1`. -/
theorem add_fails_iff_live {V : Type} (c : Cache V) (now : Int) (k : String)
    (v : V) (d : Int) :
    ((c.add now k v d).2 = some (CacheError.alreadyExists k) ↔
      c.get now k ≠ none) ∧
    (c.get now k ≠ none → (c.add now k v d).1 = c) ∧
    (c.get now k = none → c.add now k v d = (c.set now k v d, none)) ∧
    (∀ now' : Int, ∀ v₂ : V, c.get now k = none →
      Item.expired ⟨v, resolveExpiration c now d⟩ now' = false →
      ((c.add now k v d).1.add now' k v₂ d).2 =
        some (CacheError.alreadyExists k) ∧
      ((c.add now k v d).1.add now' k v₂ d).1 = (c.add now k v d).1 ∧
      (c.add now k v d).1.get now' k = some v) := by
  have hget : ∀ now' : Int,
      Item.expired ⟨v, resolveExpiration c now d⟩ now' = false →
      (c.set now k v d).get now' k = some v := fun now' hexp => by
    simp [Cache.get, Cache.set, itemsLookup_insert_self, hexp]
  cases h : c.get now k with
  | some w =>
    refine ⟨?_, ?_, ?_, ?_⟩
    · simp [Cache.add, h]
    · intro _; simp [Cache.add, h]
    · intro hc; simp [h] at hc
    · intro now' v₂ hc _; simp [h] at hc
  | none =>
    refine ⟨?_, ?_, ?_, ?_⟩
    · simp [Cache.add, h]
    · intro hc; simp [h] at hc
    · intro _; simp [Cache.add, h]
    · intro now' v₂ _ hexp
      have h1 : (c.add now k v d).1 = c.set now k v d := by simp [Cache.add, h]
      have h2 := hget now' hexp
      refine ⟨?_, ?_, ?_⟩
      · rw [h1]; simp [Cache.add, h2]
      · rw [h1]; simp [Cache.add, h2]
      · rw [h1]; exact h2

/-- Witness for C5: key "x" is absent from `wCache`, the first `add`
succeeds, and the second `add` ten ticks later fails with `AlreadyExists`,
leaves the state unchanged, and `get` still returns the first value. -/
theorem add_fails_iff_live_witness :
    ((wCache.add 10 "x" 7 50).1.add 20 "x" 8 50).2 =
      some (CacheError.alreadyExists "x") ∧
    ((wCache.add 10 "x" 7 50).1.add 20 "x" 8 50).1 =
      (wCache.add 10 "x" 7 50).1 ∧
    (wCache.add 10 "x" 7 50).1.get 20 "x" = some 7 :=
  (add_fails_iff_live wCache 10 "x" 7 50).2.2.2 20 8 (by decide) (by decide)

/-- C6: `replace(k, v, ttl)` fails with `NotFound` iff `get(k)` would
currently fail; on failure the state is untouched (and `get(k)` is still
not-found), otherwise it behaves exactly as `set(k, v, ttl)`. -/
theorem replace_fails_iff_not_found {V : Type} (c : Cache V) (now : Int)
    (k : String) (v : V) (d : Int) :
    ((c.replace now k v d).2 = some (CacheError.notFound k) ↔
      c.get now k = none) ∧
    (c.get now k = none → (c.replace now k v d).1 = c ∧
      (c.replace now k v d).1.get now k = none) ∧
    (c.get now k ≠ none → c.replace now k v d = (c.set now k v d, none)) := by
  cases h : c.get now k with
  | some w =>
    refine ⟨?_, ?_, ?_⟩
    · simp [Cache.replace, h]
    · intro hc; simp [h] at hc
    · intro _; simp [Cache.replace, h]
  | none =>
    refine ⟨?_, ?_, ?_⟩
    · simp [Cache.replace, h]
    · intro _
      constructor
      · simp [Cache.replace, h]
      · have h1 : (c.replace now k v d).1 = c := by simp [Cache.replace, h]
        rw [h1]; exact h
    · intro hc; simp [h] at hc

/-- Witness for C6: key "x" is absent from `wCache`, so `replace` fails and
the state and `get` are observably unchanged. -/
theorem replace_fails_iff_not_found_witness :
    (wCache.replace 10 "x" 7 50).1 = wCache ∧
    (wCache.replace 10 "x" 7 50).1.get 10 "x" = none :=
  (replace_fails_iff_not_found wCache 10 "x" 7 50).2.1 (by decide)

/-- C3: `deleteExpired()` judges every entry against the single reference
time `now` of the scan (the one `now` parameter of the embedding), removes
exactly the entries expired at `now`, keeps every other entry untouched (in
place), and the structural `count` drops by exactly the number removed. The
hypothesis that stored expirations are nonnegative holds in every reachable
state (see the C10 invariant) and makes the code's `Expiration > 0` test
agree with `Item.Expired`'s `Expiration != 0`. -/
theorem deleteExpired_removes_exactly_expired {V : Type} (c : Cache V)
    (now : Int) (h : ∀ p ∈ c.items, 0 ≤ p.2.expiration) :
    (c.deleteExpired now).items =
      c.items.filter (fun p => !(p.2.expired now)) ∧
    c.count = (c.deleteExpired now).count +
      (c.items.filter (fun p => p.2.expired now)).length := by
  have hagree : ∀ p ∈ c.items,
      (!(decide (p.2.expiration > 0) && decide (now > p.2.expiration))) =
        (!(p.2.expired now)) := by
    intro p hp
    have h0 := h p hp
    unfold Item.expired
    by_cases hz : p.2.expiration = 0
    · simp [hz]
    · have hpos : p.2.expiration > 0 := lt_of_le_of_ne h0 (Ne.symm hz)
      simp [hz, hpos]
  have hitems : (c.deleteExpired now).items =
      c.items.filter (fun p => !(p.2.expired now)) := by
    simp only [Cache.deleteExpired]
    exact List.filter_congr hagree
  refine ⟨hitems, ?_⟩
  have hlen := List.length_eq_length_filter_add (l := c.items)
    (fun p => p.2.expired now)
  simp only [Cache.count, hitems]
  simpa [Nat.add_comm] using hlen

/-- Witness for C3 at `wCache` with `now = 10`: only the entry under "c"
(expired at 5) is removed and the count drops from 3 to 2. -/
theorem deleteExpired_removes_exactly_expired_witness :
    (wCache.deleteExpired 10).items =
      wCache.items.filter (fun p => !(p.2.expired 10)) ∧
    wCache.count = (wCache.deleteExpired 10).count +
      (wCache.items.filter (fun p => p.2.expired 10)).length :=
  deleteExpired_removes_exactly_expired wCache 10 (by decide)

/-- C4: a successful `load(source)` merges the decoded mapping per key: a
decoded entry overwrites the live binding when the live cache has none or
an expired one, a live non-expired binding survives with the decoded entry
discarded, and keys absent from the decoded mapping are unaffected. The
decoded keys are distinct because they come from a Go map. -/
theorem load_merge_policy {V : Type} (c : Cache V) (now : Int)
    (dec : List (String × Item V)) (hnd : (dec.map Prod.fst).Nodup) :
    (c.load now (some dec)).2 = none ∧
    (∀ k, itemsLookup dec k = none →
      itemsLookup (c.load now (some dec)).1.items k = itemsLookup c.items k) ∧
    (∀ k v, itemsLookup dec k = some v → itemsLookup c.items k = none →
      itemsLookup (c.load now (some dec)).1.items k = some v) ∧
    (∀ k v ov, itemsLookup dec k = some v → itemsLookup c.items k = some ov →
      ov.expired now = true →
      itemsLookup (c.load now (some dec)).1.items k = some v) ∧
    (∀ k v ov, itemsLookup dec k = some v → itemsLookup c.items k = some ov →
      ov.expired now = false →
      itemsLookup (c.load now (some dec)).1.items k = some ov) := by
  have hitems : (c.load now (some dec)).1.items = loadMerge now c.items dec := rfl
  refine ⟨rfl, ?_, ?_, ?_, ?_⟩
  · intro k hk
    rw [hitems]
    exact loadMerge_lookup_of_not_in_dec now dec c.items k hk
  · intro k v hk hl
    rw [hitems, loadMerge_lookup_of_in_dec now dec hnd c.items k v hk, hl]
  · intro k v ov hk hl he
    rw [hitems, loadMerge_lookup_of_in_dec now dec hnd c.items k v hk, hl]
    simp [he]
  · intro k v ov hk hl he
    rw [hitems, loadMerge_lookup_of_in_dec now dec hnd c.items k v hk, hl]
    simp [he]

/-- Witness for C4 at `wCache` and `now = 10`: the live entry under "a"
survives, the decoded entries win under the expired key "c" and the absent
key "z", and the untouched key "b" keeps its binding. -/
theorem load_merge_policy_witness :
    itemsLookup (wCache.load 10 (some wDecoded)).1.items "a" = some ⟨1, 100⟩ ∧
    itemsLookup (wCache.load 10 (some wDecoded)).1.items "c" = some ⟨60, 300⟩ ∧
    itemsLookup (wCache.load 10 (some wDecoded)).1.items "z" = some ⟨70, 400⟩ ∧
    itemsLookup (wCache.load 10 (some wDecoded)).1.items "b" =
      itemsLookup wCache.items "b" :=
  ⟨(load_merge_policy wCache 10 wDecoded (by decide)).2.2.2.2 "a" ⟨50, 200⟩
      ⟨1, 100⟩ (by decide) (by decide) (by decide),
    (load_merge_policy wCache 10 wDecoded (by decide)).2.2.2.1 "c" ⟨60, 300⟩
      ⟨3, 5⟩ (by decide) (by decide) (by decide),
    (load_merge_policy wCache 10 wDecoded (by decide)).2.2.1 "z" ⟨70, 400⟩
      (by decide) (by decide),
    (load_merge_policy wCache 10 wDecoded (by decide)).2.1 "b" (by decide)⟩

/-- C8: saving a cache and loading the stream into a fresh empty cache
reproduces every entry that was not expired at save time, with the same
value and the same stored `expiresAt` instant (the merge into an empty
mapping installs every decoded binding verbatim). -/
theorem save_load_round_trip {V : Type} (c : Cache V)
    (d0 g0 now saveTime : Int) (hnd : (c.items.map Prod.fst).Nodup) :
    ∀ k item, itemsLookup c.items k = some item →
      item.expired saveTime = false →
      itemsLookup ((NewCache d0 g0 : Cache V).load now (some c.save)).1.items k =
        some item := by
  intro k item hl _
  have hdec : itemsLookup c.save k = some item := hl
  have h2 := loadMerge_lookup_of_in_dec now c.save (by exact hnd) [] k item hdec
  have hempty : itemsLookup ([] : List (String × Item V)) k = none := rfl
  have hres :
      ((NewCache d0 g0 : Cache V).load now (some c.save)).1.items =
        loadMerge now [] c.save := rfl
  rw [hres, h2, hempty]

/-- Witness for C8: round-tripping `wCache` at save time 10 reproduces the
live entry "a" and the never-expiring entry "b" byte-for-byte. -/
theorem save_load_round_trip_witness :
    itemsLookup ((NewCache 0 0 : Cache Nat).load 10 (some wCache.save)).1.items
        "a" = some ⟨1, 100⟩ ∧
    itemsLookup ((NewCache 0 0 : Cache Nat).load 10 (some wCache.save)).1.items
        "b" = some ⟨2, 0⟩ :=
  ⟨save_load_round_trip wCache 0 0 10 10 (by decide) "a" ⟨1, 100⟩ (by decide)
      (by decide),
    save_load_round_trip wCache 0 0 10 10 (by decide) "b" ⟨2, 0⟩ (by decide)
      (by decide)⟩

theorem resolveExpiration_nonneg {V : Type} (c : Cache V) {now : Int}
    (d : Int) (hnow : 0 ≤ now) : 0 ≤ resolveExpiration c now d := by
  unfold resolveExpiration
  dsimp only
  split
  · omega
  · omega

theorem set_preserves_nonneg {V : Type} {c : Cache V}
    (hinv : ∀ p ∈ c.items, 0 ≤ p.2.expiration) {now : Int} (hnow : 0 ≤ now)
    (k : String) (v : V) (d : Int) :
    ∀ p ∈ (c.set now k v d).items, 0 ≤ p.2.expiration := by
  intro p hp
  simp only [Cache.set] at hp
  rcases mem_itemsInsert hp with rfl | hp'
  · exact resolveExpiration_nonneg c d hnow
  · exact hinv p hp'

/-- C10: in every state reachable through the public operations (with
clock readings nonnegative and `load` fed only streams produced by `save`),
every stored expiration is nonnegative; consequently the sweep's strict
`Expiration > 0` test agrees with `Item.Expired`'s `Expiration != 0` on all
stored entries, and `deleteExpired` never removes a never-expiring entry. -/
theorem reachable_expiration_nonneg {V : Type} (c : Cache V)
    (h : Reachable c) :
    (∀ p ∈ c.items, 0 ≤ p.2.expiration) ∧
    (∀ now : Int, ∀ p ∈ c.items,
      (decide (p.2.expiration > 0) && decide (now > p.2.expiration)) =
        p.2.expired now) ∧
    (∀ now : Int, ∀ p ∈ c.items, p.2.expiration = 0 →
      p ∈ (c.deleteExpired now).items) := by
  have main : ∀ p ∈ c.items, 0 ≤ p.2.expiration := by
    induction h with
    | new d g => intro p hp; exact absurd hp (List.not_mem_nil p)
    | set now k v d hr hnow ih => exact set_preserves_nonneg ih hnow k v d
    | add now k v d hr hnow ih =>
      intro p hp
      rename_i c'
      rcases hg : c'.get now k with _ | w
      · have : (c'.add now k v d).1 = c'.set now k v d := by
          simp [Cache.add, hg]
        rw [this] at hp
        exact set_preserves_nonneg ih hnow k v d p hp
      · have : (c'.add now k v d).1 = c' := by simp [Cache.add, hg]
        rw [this] at hp
        exact ih p hp
    | replace now k v d hr hnow ih =>
      intro p hp
      rename_i c'
      rcases hg : c'.get now k with _ | w
      · have : (c'.replace now k v d).1 = c' := by simp [Cache.replace, hg]
        rw [this] at hp
        exact ih p hp
      · have : (c'.replace now k v d).1 = c'.set now k v d := by
          simp [Cache.replace, hg]
        rw [this] at hp
        exact set_preserves_nonneg ih hnow k v d p hp
    | del k hr ih =>
      intro p hp
      simp only [Cache.delete] at hp
      exact ih p (mem_itemsErase hp)
    | sweep now hr ih =>
      intro p hp
      simp only [Cache.deleteExpired] at hp
      exact ih p (List.mem_of_mem_filter hp)
    | flushed hr ih =>
      intro p hp
      exact absurd hp (List.not_mem_nil p)
    | loadSaved now hr hr₂ ih ih₂ =>
      intro p hp
      rename_i c₁ c₂
      have hitems : ((c₁.load now (some c₂.save)).1).items =
          loadMerge now c₁.items c₂.items := rfl
      rw [hitems] at hp
      rcases loadMerge_mem now c₂.items c₁.items p hp with hl | hl
      · exact ih p hl
      · exact ih₂ p hl
    | loadFail now hr ih => exact ih
  refine ⟨main, ?_, ?_⟩
  · intro now p hp
    have h0 := main p hp
    unfold Item.expired
    by_cases hz : p.2.expiration = 0
    · simp [hz]
    · have hpos : p.2.expiration > 0 := lt_of_le_of_ne h0 (Ne.symm hz)
      simp [hz, hpos]
  · intro now p hp hz
    simp only [Cache.deleteExpired, List.mem_filter]
    exact ⟨hp, by simp [hz]⟩

/-- Witness for C10: the state built by `new` then `set` with
`NoExpiration` is reachable, and its never-expiring entry survives a
`deleteExpired` sweep at time 100. -/
theorem reachable_expiration_nonneg_witness :
    ("a", (⟨3, 0⟩ : Item Nat)) ∈
      (((NewCache 20 1 : Cache Nat).set 0 "a" 3 NoExpiration).deleteExpired
        100).items :=
  (reachable_expiration_nonneg
    ((NewCache 20 1 : Cache Nat).set 0 "a" 3 NoExpiration)
    (Reachable.set 0 "a" 3 NoExpiration (Reachable.new 20 1) (by decide))).2.2
    100 ("a", ⟨3, 0⟩) (by decide) (by decide)

end CacheSys
